import Mathlib

/-!
A verification of the `leachuuid7` UUIDv7 library (`src/lib.rs`).

The Rust code stores a UUID as `[u8; 16]`; we model a byte as a `Nat`
together with the well-formedness predicate `Uuid7.Wf` demanding 16 bytes
each below 256.  Rust strings are modelled as `List Char` (unicode scalar
values); `str::len` counts UTF-8 bytes, which we model with `charBytes`.
A Rust panic (reachable in `from_str` through byte-slicing `&hex[a..b]` at
a non-character boundary) is modelled by the `PRes.panicked` outcome.
-/

/-- Number of bytes of the UTF-8 encoding of a character
(the unit in which Rust's `str::len` and string slicing work). -/
def charBytes (c : Char) : Nat :=
  if c.toNat < 128 then 1
  else if c.toNat < 2048 then 2
  else if c.toNat < 65536 then 3
  else 4

/-- UTF-8 byte length of a string, i.e. Rust's `str::len`. -/
def utf8ByteLen (s : List Char) : Nat := (s.map charBytes).sum

/-- Lowercase hexadecimal digit for a nibble, as produced by Rust's
`{:02x}` formatting. -/
def hexDigit (n : Nat) : Char :=
  if n < 10 then Char.ofNat (48 + n) else Char.ofNat (87 + n)

/-- The two lowercase hex digits `{:02x}` prints for a byte `b < 256`
(`src/lib.rs` line 118). -/
def byteHex (b : Nat) : List Char := [hexDigit (b / 16), hexDigit (b % 16)]

/-- A UUIDv7 value: the 16 bytes of `struct Uuid7` (`src/lib.rs` lines 36-40). -/
structure Uuid7 where
  bytes : List Nat
  deriving DecidableEq, Repr

/-- Well-formedness carried in Rust by the type `[u8; 16]`:
16 bytes, each below 256. -/
def Uuid7.Wf (u : Uuid7) : Prop := u.bytes.length = 16 ∧ ∀ b ∈ u.bytes, b < 256

instance (u : Uuid7) : Decidable u.Wf := by
  unfold Uuid7.Wf; infer_instance

/-- `Uuid7::as_bytes` (`src/lib.rs` lines 99-101). -/
def Uuid7.as_bytes (u : Uuid7) : List Nat := u.bytes

/-- `Uuid7::as_u128` (`src/lib.rs` lines 104-110):
`value |= (byte as u128) << (120 - i*8)` over the enumerated bytes. -/
def Uuid7.as_u128 (u : Uuid7) : Nat :=
  u.bytes.enum.foldl (fun value p => value ||| (p.2 <<< (120 - p.1 * 8))) 0

/-- `Uuid7::new_with_rng` (`src/lib.rs` lines 69-96).
`millis` is the clock reading `now.as_millis()` (truncated `as u64`);
`rand` is the byte stream `rng.fill_bytes` writes into `bytes[6..]`
(10 bytes; each reduced mod 256 as the rng yields `u8`s). -/
def Uuid7.new_with_rng (millis : Nat) (rand : List Nat) : Uuid7 :=
  let m := millis % 2 ^ 64
  let r := fun k => rand.getD k 0 % 256
  Uuid7.mk
    [ m >>> 40 % 256, m >>> 32 % 256, m >>> 24 % 256,
      m >>> 16 % 256, m >>> 8 % 256, m % 256,
      Nat.lor (Nat.land (r 0) 0x0F) 0x70,
      r 1,
      Nat.lor (Nat.land (r 2) 0x3F) 0x80,
      r 3, r 4, r 5, r 6, r 7, r 8, r 9 ]

/-- `impl fmt::Display for Uuid7` (`src/lib.rs` lines 113-126):
each byte as `{:02x}`, dashes in the 8-4-4-4-12 pattern. -/
def Uuid7.format (u : Uuid7) : List Char :=
  byteHex (u.bytes.getD 0 0) ++ byteHex (u.bytes.getD 1 0) ++
  byteHex (u.bytes.getD 2 0) ++ byteHex (u.bytes.getD 3 0) ++
  ['-'] ++ byteHex (u.bytes.getD 4 0) ++ byteHex (u.bytes.getD 5 0) ++
  ['-'] ++ byteHex (u.bytes.getD 6 0) ++ byteHex (u.bytes.getD 7 0) ++
  ['-'] ++ byteHex (u.bytes.getD 8 0) ++ byteHex (u.bytes.getD 9 0) ++
  ['-'] ++ byteHex (u.bytes.getD 10 0) ++ byteHex (u.bytes.getD 11 0) ++
  byteHex (u.bytes.getD 12 0) ++ byteHex (u.bytes.getD 13 0) ++
  byteHex (u.bytes.getD 14 0) ++ byteHex (u.bytes.getD 15 0)

/-- `char::to_digit(16)` as used by `u8::from_str_radix`. -/
def hexDigitVal (c : Char) : Option Nat :=
  if 48 ≤ c.toNat ∧ c.toNat ≤ 57 then some (c.toNat - 48)
  else if 97 ≤ c.toNat ∧ c.toNat ≤ 102 then some (c.toNat - 87)
  else if 65 ≤ c.toNat ∧ c.toNat ≤ 70 then some (c.toNat - 55)
  else none

/-- Digit-accumulation loop of `u8::from_str_radix` (radix 16, checked
arithmetic in `u8`, so the running value may never exceed 255). -/
def digitsVal : List Char → Nat → Option Nat
  | [], acc => some acc
  | c :: cs, acc =>
    match hexDigitVal c with
    | none => none
    | some d => if 16 * acc + d ≤ 255 then digitsVal cs (16 * acc + d) else none

/-- `u8::from_str_radix(s, 16)`: empty input fails, a leading `+` is
accepted (with at least one digit after it), `-` is not a digit for an
unsigned type. -/
def from_str_radix16 (cs : List Char) : Option Nat :=
  match cs with
  | [] => none
  | '+' :: rest => if rest.isEmpty then none else digitsVal rest 0
  | _ => digitsVal cs 0

/-- Drop `n` UTF-8 bytes from the front of a string; `none` when `n` is
not a character boundary or exceeds the length (a Rust slicing panic). -/
def dropBytes : List Char → Nat → Option (List Char)
  | s, 0 => some s
  | [], _ + 1 => none
  | c :: s, n + 1 =>
    if charBytes c ≤ n + 1 then dropBytes s (n + 1 - charBytes c) else none

/-- Take `n` UTF-8 bytes from the front of a string; `none` when `n` is
not a character boundary or exceeds the length (a Rust slicing panic). -/
def takeBytes : List Char → Nat → Option (List Char)
  | _, 0 => some []
  | [], _ + 1 => none
  | c :: s, n + 1 =>
    if charBytes c ≤ n + 1 then
      match takeBytes s (n + 1 - charBytes c) with
      | some t => some (c :: t)
      | none => none
    else none

/-- Rust byte slicing `&s[a..b]` (here always with `a ≤ b`): `none`
models the panic on an out-of-range or non-character-boundary index. -/
def sliceBytes (s : List Char) (a b : Nat) : Option (List Char) :=
  match dropBytes s a with
  | none => none
  | some t => takeBytes t (b - a)

/-- Outcome of a Rust computation that can return a value, return an
error (`ParseUuid7Error` carries only its message string), or panic. -/
inductive PRes (α : Type) where
  | panicked : PRes α
  | error : String → PRes α
  | ok : α → PRes α
  deriving DecidableEq, Repr

/-- Message of the length error (`src/lib.rs` line 152). -/
def lengthErrMsg : String := "Invalid UUID length; expected 36 characters"

/-- Message of the dash-position error (`src/lib.rs` line 158). -/
def dashErrMsg : String :=
  "Invalid UUID format; expected dashes at positions 8, 13, 18, and 23"

/-- Message of the version error (`src/lib.rs` lines 163-166). -/
def versionErrMsg (c : Char) : String :=
  String.push "Invalid version: expected 7, got " c

/-- Message of the variant error (`src/lib.rs` lines 172-175). -/
def variantErrMsg (c : Char) : String :=
  String.push "Invalid variant: expected one of 8, 9, a, b, got " c

/-- Message of the hex-decode error (`src/lib.rs` line 186). -/
def hexErrMsg (i : Nat) (cs : List Char) : String :=
  "Invalid hex at position " ++ toString i ++ ": " ++ String.mk cs

/-- The decode loop of `from_str` (`src/lib.rs` lines 183-187): for each
index from `i` (with `n` iterations left), slice two bytes out of `hex`
(panicking on a bad boundary) and parse them with `u8::from_str_radix`. -/
def decodeBytes (hex : List Char) : Nat → Nat → PRes (List Nat)
  | _, 0 => .ok []
  | i, n + 1 =>
    match sliceBytes hex (2 * i) (2 * i + 2) with
    | none => .panicked
    | some cs =>
      match from_str_radix16 cs with
      | none => .error (hexErrMsg i cs)
      | some b =>
        match decodeBytes hex (i + 1) n with
        | .ok bs => .ok (b :: bs)
        | .error e => .error e
        | .panicked => .panicked

/-- `impl FromStr for Uuid7` (`src/lib.rs` lines 149-190): length check
(in UTF-8 bytes), dash positions, version digit, variant digit, then the
per-byte hex decode of the string with dashes removed. -/
def from_str (s : List Char) : PRes Uuid7 :=
  if utf8ByteLen s ≠ 36 then
    .error lengthErrMsg
  else if s.get? 8 ≠ some '-' ∨ s.get? 13 ≠ some '-' ∨
          s.get? 18 ≠ some '-' ∨ s.get? 23 ≠ some '-' then
    .error dashErrMsg
  else if s.get? 14 ≠ some '7' then
    .error (versionErrMsg ((s.get? 14).getD '?'))
  else if (s.get? 19).getD '?' ∉ (['8', '9', 'a', 'b', 'A', 'B'] : List Char) then
    .error (variantErrMsg ((s.get? 19).getD '?'))
  else
    match decodeBytes (s.filter (fun c => c != '-')) 0 16 with
    | .ok bs => .ok (Uuid7.mk bs)
    | .error e => .error e
    | .panicked => .panicked

/-- Lexicographic byte comparison: the order `#[derive(PartialOrd, Ord)]`
produces for `[u8; 16]` (`src/lib.rs` line 36). -/
def ltBytes : List Nat → List Nat → Bool
  | [], [] => false
  | [], _ :: _ => true
  | _ :: _, [] => false
  | a :: as', b :: bs' =>
    if a < b then true else if b < a then false else ltBytes as' bs'

/-- The derived strict order on `Uuid7` values. -/
def Uuid7.lt (u v : Uuid7) : Bool := ltBytes u.bytes v.bytes

/-- Big-endian value of a byte list (specification-side helper used to
state what the byte order means as an integer). -/
def beVal (l : List Nat) : Nat := l.foldl (fun a b => 256 * a + b) 0

/-- Timestamp field: bytes 0-5 read big-endian (specification-side). -/
def Uuid7.tsVal (u : Uuid7) : Nat := beVal (u.bytes.take 6)

/-- Specification-side lowercase normalisation from claim C10: an
uppercase hexadecimal letter is replaced by its lowercase form. -/
def lowerHexChar (c : Char) : Char :=
  if 65 ≤ c.toNat ∧ c.toNat ≤ 70 then Char.ofNat (c.toNat + 32) else c

/-- Specification-side MSB-first reading of a hex digit string, used to
state that formatting is big-endian. -/
def hexFold (cs : List Char) : Nat :=
  cs.foldl (fun a c => 16 * a + (hexDigitVal c).getD 0) 0

/-! ### Arithmetic helper lemmas -/

lemma lor_eq_add (i x y : Nat) (hx : x % 2 ^ i = 0) (hy : y < 2 ^ i) :
    x ||| y = x + y := by
  have hd := Nat.div_add_mod x (2 ^ i)
  have hxx : x = 2 ^ i * (x / 2 ^ i) := by omega
  rw [hxx]
  exact (Nat.mul_add_lt_is_or hy _).symm

set_option maxRecDepth 4000 in
lemma version_byte_shift : ∀ x, x < 256 → Nat.lor (Nat.land x 15) 112 >>> 4 = 7 := by decide

set_option maxRecDepth 4000 in
lemma variant_byte_shift : ∀ x, x < 256 → Nat.lor (Nat.land x 63) 128 >>> 6 = 2 := by decide

set_option maxRecDepth 4000 in
lemma version_byte_lt : ∀ x, x < 256 → Nat.lor (Nat.land x 15) 112 < 256 := by decide

set_option maxRecDepth 4000 in
lemma variant_byte_lt : ∀ x, x < 256 → Nat.lor (Nat.land x 63) 128 < 256 := by decide

set_option maxRecDepth 4000 in
lemma version_byte_div : ∀ x, x < 256 → Nat.lor (Nat.land x 15) 112 / 16 = 7 := by decide

set_option maxRecDepth 4000 in
lemma variant_byte_div : ∀ x, x < 256 → Nat.lor (Nat.land x 63) 128 / 64 = 2 := by decide

lemma beVal_cons_aux (l : List Nat) :
    ∀ acc, l.foldl (fun a b => 256 * a + b) acc =
      acc * 256 ^ l.length + l.foldl (fun a b => 256 * a + b) 0 := by
  induction l with
  | nil => intro acc; simp
  | cons c l ih =>
    intro acc
    simp only [List.foldl_cons, List.length_cons]
    rw [ih (256 * acc + c), ih (256 * 0 + c)]
    ring

lemma beVal_cons (b : Nat) (l : List Nat) :
    beVal (b :: l) = b * 256 ^ l.length + beVal l := by
  unfold beVal
  simp only [List.foldl_cons]
  rw [beVal_cons_aux l (256 * 0 + b)]
  ring

lemma beVal_lt (l : List Nat) (h : ∀ b ∈ l, b < 256) :
    beVal l < 256 ^ l.length := by
  induction l with
  | nil => simp [beVal]
  | cons b l ih =>
    have hb : b < 256 := h b (by simp)
    have hl := ih (fun x hx => h x (by simp [hx]))
    rw [beVal_cons, List.length_cons, pow_succ]
    have h1 : b * 256 ^ l.length + beVal l < (b + 1) * 256 ^ l.length := by
      nlinarith
    have h2 : (b + 1) * 256 ^ l.length ≤ 256 ^ l.length * 256 := by
      nlinarith
    omega

lemma as_u128_foldl_enumFrom (l : List Nat) :
    ∀ i acc, (∀ b ∈ l, b < 256) → i + l.length = 16 →
      acc % 2 ^ (128 - 8 * i) = 0 →
      (List.enumFrom i l).foldl
          (fun value p => value ||| (p.2 <<< (120 - p.1 * 8))) acc =
        acc + beVal l := by
  induction l with
  | nil => intro i acc _ _ _; simp [beVal]
  | cons b l ih =>
    intro i acc hb hlen hacc
    have hib : b < 256 := hb b (by simp)
    have hi : i ≤ 15 := by simp at hlen; omega
    simp only [List.enumFrom, List.foldl_cons]
    have hstep : acc ||| b <<< (120 - i * 8) = acc + b * 2 ^ (120 - 8 * i) := by
      rw [Nat.shiftLeft_eq]
      have h1 : 120 - i * 8 = 120 - 8 * i := by ring_nf
      rw [h1]
      refine lor_eq_add (128 - 8 * i) acc _ hacc ?_
      have h2 : (128 - 8 * i) = (120 - 8 * i) + 8 := by omega
      rw [h2, pow_add]
      have : (256 : Nat) = 2 ^ 8 := by norm_num
      nlinarith [Nat.pos_pow_of_pos (120 - 8 * i) (show 0 < 2 by norm_num)]
    rw [hstep]
    have hdvd : 2 ^ (120 - 8 * i) ∣ acc := by
      refine dvd_trans (pow_dvd_pow 2 (show 120 - 8 * i ≤ 128 - 8 * i by omega)) ?_
      exact Nat.dvd_of_mod_eq_zero hacc
    have hacc' : (acc + b * 2 ^ (120 - 8 * i)) % 2 ^ (128 - 8 * (i + 1)) = 0 := by
      have h3 : 128 - 8 * (i + 1) = 120 - 8 * i := by omega
      rw [h3]
      exact Nat.mod_eq_zero_of_dvd (dvd_add hdvd (dvd_mul_left _ b))
    rw [ih (i + 1) _ (fun x hx => hb x (by simp [hx])) (by simp at hlen ⊢; omega) hacc']
    have hlen' : l.length = 15 - i := by simp at hlen; omega
    rw [beVal_cons, hlen']
    have h256 : (256 : Nat) ^ (15 - i) = 2 ^ (120 - 8 * i) := by
      have h8 : (256 : Nat) = 2 ^ 8 := by norm_num
      rw [h8, ← pow_mul]
      congr 1
      omega
    rw [h256]
    omega

lemma as_u128_eq_beVal (u : Uuid7) (h : u.Wf) : u.as_u128 = beVal u.bytes := by
  obtain ⟨hlen, hb⟩ := h
  unfold Uuid7.as_u128
  rw [show u.bytes.enum = List.enumFrom 0 u.bytes from rfl]
  rw [as_u128_foldl_enumFrom u.bytes 0 0 hb (by omega) (by simp)]
  omega

lemma list16_destruct (l : List Nat) (h : l.length = 16) :
    ∃ b0 b1 b2 b3 b4 b5 b6 b7 b8 b9 b10 b11 b12 b13 b14 b15,
      l = [b0, b1, b2, b3, b4, b5, b6, b7, b8, b9, b10, b11, b12, b13, b14, b15] := by
  rcases l with _ | ⟨b0, l⟩; · simp at h
  rcases l with _ | ⟨b1, l⟩; · simp at h
  rcases l with _ | ⟨b2, l⟩; · simp at h
  rcases l with _ | ⟨b3, l⟩; · simp at h
  rcases l with _ | ⟨b4, l⟩; · simp at h
  rcases l with _ | ⟨b5, l⟩; · simp at h
  rcases l with _ | ⟨b6, l⟩; · simp at h
  rcases l with _ | ⟨b7, l⟩; · simp at h
  rcases l with _ | ⟨b8, l⟩; · simp at h
  rcases l with _ | ⟨b9, l⟩; · simp at h
  rcases l with _ | ⟨b10, l⟩; · simp at h
  rcases l with _ | ⟨b11, l⟩; · simp at h
  rcases l with _ | ⟨b12, l⟩; · simp at h
  rcases l with _ | ⟨b13, l⟩; · simp at h
  rcases l with _ | ⟨b14, l⟩; · simp at h
  rcases l with _ | ⟨b15, l⟩; · simp at h
  rcases l with _ | ⟨b16, l⟩
  · exact ⟨b0, b1, b2, b3, b4, b5, b6, b7, b8, b9, b10, b11, b12, b13, b14, b15, rfl⟩
  · simp at h

lemma beVal16 (b0 b1 b2 b3 b4 b5 b6 b7 b8 b9 b10 b11 b12 b13 b14 b15 : Nat) :
    beVal [b0, b1, b2, b3, b4, b5, b6, b7, b8, b9, b10, b11, b12, b13, b14, b15] =
      b0 * 2 ^ 120 + b1 * 2 ^ 112 + b2 * 2 ^ 104 + b3 * 2 ^ 96 +
      b4 * 2 ^ 88 + b5 * 2 ^ 80 + b6 * 2 ^ 72 + b7 * 2 ^ 64 +
      b8 * 2 ^ 56 + b9 * 2 ^ 48 + b10 * 2 ^ 40 + b11 * 2 ^ 32 +
      b12 * 2 ^ 24 + b13 * 2 ^ 16 + b14 * 2 ^ 8 + b15 := by
  simp only [beVal, List.foldl_cons, List.foldl_nil]
  ring

lemma new_with_rng_bytes (millis : Nat) (rand : List Nat) :
    (Uuid7.new_with_rng millis rand).bytes =
      [ (millis % 2 ^ 64) >>> 40 % 256, (millis % 2 ^ 64) >>> 32 % 256,
        (millis % 2 ^ 64) >>> 24 % 256, (millis % 2 ^ 64) >>> 16 % 256,
        (millis % 2 ^ 64) >>> 8 % 256, millis % 2 ^ 64 % 256,
        Nat.lor (Nat.land (rand.getD 0 0 % 256) 15) 112,
        rand.getD 1 0 % 256,
        Nat.lor (Nat.land (rand.getD 2 0 % 256) 63) 128,
        rand.getD 3 0 % 256, rand.getD 4 0 % 256, rand.getD 5 0 % 256,
        rand.getD 6 0 % 256, rand.getD 7 0 % 256, rand.getD 8 0 % 256,
        rand.getD 9 0 % 256 ] := rfl

lemma new_with_rng_wf (millis : Nat) (rand : List Nat) :
    (Uuid7.new_with_rng millis rand).Wf := by
  refine ⟨rfl, ?_⟩
  intro b hb
  rw [new_with_rng_bytes] at hb
  simp only [List.mem_cons, List.not_mem_nil, or_false] at hb
  rcases hb with rfl | rfl | rfl | rfl | rfl | rfl | rfl | rfl | rfl | rfl |
    rfl | rfl | rfl | rfl | rfl | rfl
  all_goals first
    | exact Nat.mod_lt _ (by norm_num)
    | exact version_byte_lt _ (Nat.mod_lt _ (by norm_num))
    | exact variant_byte_lt _ (Nat.mod_lt _ (by norm_num))

/-- C2: whatever bytes the random source yields for positions 6..15 and
whatever the clock reads, `new_with_rng` forces the high nibble of byte 6
to 7 (the version) and the top two bits of byte 8 to binary 10 (the
variant). -/
theorem c2_generated_version_variant (millis : Nat) (rand : List Nat) :
    (Uuid7.new_with_rng millis rand).bytes.getD 6 0 >>> 4 = 7 ∧
    (Uuid7.new_with_rng millis rand).bytes.getD 8 0 >>> 6 = 2 := by
  rw [new_with_rng_bytes]
  simp only [List.getD_cons_succ, List.getD_cons_zero]
  exact ⟨version_byte_shift _ (Nat.mod_lt _ (by norm_num)),
         variant_byte_shift _ (Nat.mod_lt _ (by norm_num))⟩

/-- C4 counterexample: with clock reading 1 ms and an all-zero random
fill, bits 67-64 of `as_u128` are 0, not the version constant 7, and the
claimed 60-bit timestamp field (bits 127-68) holds 5888, not the
millisecond count 1: the version nibble actually lives at bits 79-76. -/
theorem c4_counterexample :
    ((Uuid7.new_with_rng 1 [0, 0, 0, 0, 0, 0, 0, 0, 0, 0]).as_u128 >>> 64) % 16 ≠ 7 ∧
    (Uuid7.new_with_rng 1 [0, 0, 0, 0, 0, 0, 0, 0, 0, 0]).as_u128 >>> 68 ≠ 1 := by
  decide

/-- C4 amended: in every generated value, viewed through `as_u128` with
bit 127 most significant, the 4-bit version field holding the constant 7
occupies bits 79-76, and the 48-bit timestamp field occupies bits 127-80,
holding the millisecond count modulo 2^48. -/
theorem c4_amended_field_positions (millis : Nat) (rand : List Nat) :
    ((Uuid7.new_with_rng millis rand).as_u128 >>> 76) % 16 = 7 ∧
    (Uuid7.new_with_rng millis rand).as_u128 >>> 80 = millis % 2 ^ 48 := by
  have hwf := new_with_rng_wf millis rand
  rw [as_u128_eq_beVal _ hwf, new_with_rng_bytes, beVal16]
  have h6d := version_byte_div (rand.getD 0 0 % 256) (Nat.mod_lt _ (by norm_num))
  have h6l := version_byte_lt (rand.getD 0 0 % 256) (Nat.mod_lt _ (by norm_num))
  have h8l := variant_byte_lt (rand.getD 2 0 % 256) (Nat.mod_lt _ (by norm_num))
  generalize Nat.lor (Nat.land (rand.getD 0 0 % 256) 15) 112 = v6 at h6d h6l ⊢
  generalize Nat.lor (Nat.land (rand.getD 2 0 % 256) 63) 128 = v8 at h8l ⊢
  simp only [Nat.shiftRight_eq_div_pow]
  constructor
  · omega
  · omega

/-- C9: for every well-formed value and byte position `i < 16`, byte `i`
extracted from the 128-bit accessor, `(as_u128 v >>> (120 - 8*i)) &&& 255`,
equals `as_bytes v` at index `i`: the two accessors present the same
payload in the same big-endian byte order. -/
theorem c9_accessor_consistency (u : Uuid7) (h : u.Wf) (i : Nat) (hi : i < 16) :
    (u.as_u128 >>> (120 - 8 * i)) &&& 255 = u.as_bytes.getD i 0 := by
  have h255 : (255 : Nat) = 2 ^ 8 - 1 := rfl
  rw [h255, Nat.and_pow_two_sub_one_eq_mod]
  rw [as_u128_eq_beVal _ h]
  obtain ⟨hlen, hb⟩ := h
  obtain ⟨b0, b1, b2, b3, b4, b5, b6, b7, b8, b9, b10, b11, b12, b13, b14, b15, heq⟩ :=
    list16_destruct u.bytes hlen
  unfold Uuid7.as_bytes
  rw [heq] at hb ⊢
  simp only [List.mem_cons, List.not_mem_nil, or_false, forall_eq_or_imp, forall_eq] at hb
  obtain ⟨B0, B1, B2, B3, B4, B5, B6, B7, B8, B9, B10, B11, B12, B13, B14, B15⟩ := hb
  rw [beVal16]
  simp only [Nat.shiftRight_eq_div_pow]
  interval_cases i <;>
    simp only [List.getD_cons_succ, List.getD_cons_zero] <;> omega

/-- C9 witness at a concrete value and index. -/
theorem c9_accessor_consistency_witness :
    ((Uuid7.mk [1, 132, 225, 160, 126, 42, 125, 64, 143, 59, 92, 26, 43, 60, 77, 94]).as_u128
        >>> (120 - 8 * 3)) &&& 255 =
      (Uuid7.mk [1, 132, 225, 160, 126, 42, 125, 64, 143, 59, 92, 26, 43, 60, 77, 94]).as_bytes.getD 3 0 :=
  c9_accessor_consistency _ (by decide) 3 (by decide)

lemma beVal_append (s t : List Nat) :
    beVal (s ++ t) = beVal s * 256 ^ t.length + beVal t := by
  unfold beVal
  rw [List.foldl_append]
  exact beVal_cons_aux t _

lemma ltBytes_iff_beVal : ∀ as' bs', as'.length = bs'.length →
    (∀ b ∈ as', b < 256) → (∀ b ∈ bs', b < 256) →
    (ltBytes as' bs' = true ↔ beVal as' < beVal bs')
  | [], [], _, _, _ => by simp [ltBytes]
  | [], _ :: _, h, _, _ => by simp at h
  | _ :: _, [], h, _, _ => by simp at h
  | a :: as', b :: bs', h, ha, hb => by
    have hlen : as'.length = bs'.length := by simpa using h
    have ha' : ∀ x ∈ as', x < 256 := fun x hx => ha x (by simp [hx])
    have hb' : ∀ x ∈ bs', x < 256 := fun x hx => hb x (by simp [hx])
    have haa : a < 256 := ha a (by simp)
    have hbb : b < 256 := hb b (by simp)
    have hA := beVal_lt as' ha'
    have hB := beVal_lt bs' hb'
    rw [hlen] at hA
    have ih := ltBytes_iff_beVal as' bs' hlen ha' hb'
    rw [beVal_cons, beVal_cons, hlen]
    show (if a < b then true else if b < a then false else ltBytes as' bs') = true ↔ _
    by_cases h1 : a < b
    · rw [if_pos h1]
      constructor
      · intro _
        nlinarith
      · intro _; rfl
    · by_cases h2 : b < a
      · rw [if_neg h1, if_pos h2]
        constructor
        · intro hf; exact absurd hf (by simp)
        · intro hlt; exfalso; nlinarith
      · have hab : a = b := by omega
        subst hab
        rw [if_neg h1, if_neg h2, ih]
        constructor <;> intro hlt <;> omega

/-- C8: for well-formed values, the derived byte-wise comparison agrees
with comparison of the 128-bit integers, and a value whose big-endian
48-bit timestamp field (bytes 0-5) is smaller compares strictly smaller
whatever the random bytes are. -/
theorem c8_order_chronological (u v : Uuid7) (hu : u.Wf) (hv : v.Wf) :
    (Uuid7.lt u v = true ↔ u.as_u128 < v.as_u128) ∧
    (u.tsVal < v.tsVal → Uuid7.lt u v = true) := by
  have hiff : Uuid7.lt u v = true ↔ u.as_u128 < v.as_u128 := by
    rw [as_u128_eq_beVal _ hu, as_u128_eq_beVal _ hv]
    exact ltBytes_iff_beVal u.bytes v.bytes (by rw [hu.1, hv.1]) hu.2 hv.2
  refine ⟨hiff, fun hts => ?_⟩
  rw [hiff, as_u128_eq_beVal _ hu, as_u128_eq_beVal _ hv]
  conv_lhs => rw [← List.take_append_drop 6 u.bytes]
  conv_rhs => rw [← List.take_append_drop 6 v.bytes]
  rw [beVal_append, beVal_append]
  have hul : (u.bytes.drop 6).length = 10 := by rw [List.length_drop, hu.1]
  have hvl : (v.bytes.drop 6).length = 10 := by rw [List.length_drop, hv.1]
  rw [hul, hvl]
  have hur : beVal (u.bytes.drop 6) < 256 ^ 10 := by
    have := beVal_lt (u.bytes.drop 6) (fun x hx => hu.2 x (List.drop_subset _ _ hx))
    rwa [hul] at this
  have hts' : u.tsVal < v.tsVal := hts
  unfold Uuid7.tsVal at hts'
  have hp : (256 : Nat) ^ 10 = 1208925819614629174706176 := by norm_num
  rw [hp] at hur ⊢
  omega

/-- C8 witness at two concrete well-formed values differing in the
timestamp bytes. -/
theorem c8_order_chronological_witness :
    ((Uuid7.lt (Uuid7.mk [0, 0, 0, 0, 0, 1, 112, 0, 128, 0, 0, 0, 0, 0, 0, 0])
        (Uuid7.mk [0, 0, 0, 0, 0, 2, 112, 0, 128, 0, 0, 0, 0, 0, 0, 0]) = true ↔
      (Uuid7.mk [0, 0, 0, 0, 0, 1, 112, 0, 128, 0, 0, 0, 0, 0, 0, 0]).as_u128 <
        (Uuid7.mk [0, 0, 0, 0, 0, 2, 112, 0, 128, 0, 0, 0, 0, 0, 0, 0]).as_u128) ∧
     ((Uuid7.mk [0, 0, 0, 0, 0, 1, 112, 0, 128, 0, 0, 0, 0, 0, 0, 0]).tsVal <
        (Uuid7.mk [0, 0, 0, 0, 0, 2, 112, 0, 128, 0, 0, 0, 0, 0, 0, 0]).tsVal →
      Uuid7.lt (Uuid7.mk [0, 0, 0, 0, 0, 1, 112, 0, 128, 0, 0, 0, 0, 0, 0, 0])
        (Uuid7.mk [0, 0, 0, 0, 0, 2, 112, 0, 128, 0, 0, 0, 0, 0, 0, 0]) = true)) :=
  c8_order_chronological _ _ (by decide) (by decide)

/-! ### Formatting structure -/

set_option maxRecDepth 4000 in
lemma hexDigitVal_hexDigit : ∀ m, m < 16 → hexDigitVal (hexDigit m) = some m := by decide

set_option maxRecDepth 4000 in
lemma hexDigit_ne_dash : ∀ m, m < 16 → (hexDigit m != '-') = true := by decide

set_option maxRecDepth 4000 in
lemma charBytes_hexDigit : ∀ m, m < 16 → charBytes (hexDigit m) = 1 := by decide

set_option maxRecDepth 4000 in
lemma hexDigit_mem_lower : ∀ m, m < 16 → hexDigit m ∈ "0123456789abcdef".toList := by decide

lemma format_mk_segments (b0 b1 b2 b3 b4 b5 b6 b7 b8 b9 b10 b11 b12 b13 b14 b15 : Nat) :
    Uuid7.format (Uuid7.mk [b0, b1, b2, b3, b4, b5, b6, b7, b8, b9, b10, b11, b12, b13, b14, b15]) =
      byteHex b0 ++ byteHex b1 ++ byteHex b2 ++ byteHex b3 ++ ['-'] ++
      byteHex b4 ++ byteHex b5 ++ ['-'] ++ byteHex b6 ++ byteHex b7 ++ ['-'] ++
      byteHex b8 ++ byteHex b9 ++ ['-'] ++ byteHex b10 ++ byteHex b11 ++
      byteHex b12 ++ byteHex b13 ++ byteHex b14 ++ byteHex b15 := rfl

lemma format_mk_explicit (b0 b1 b2 b3 b4 b5 b6 b7 b8 b9 b10 b11 b12 b13 b14 b15 : Nat) :
    Uuid7.format (Uuid7.mk [b0, b1, b2, b3, b4, b5, b6, b7, b8, b9, b10, b11, b12, b13, b14, b15]) =
      [hexDigit (b0 / 16), hexDigit (b0 % 16), hexDigit (b1 / 16), hexDigit (b1 % 16),
       hexDigit (b2 / 16), hexDigit (b2 % 16), hexDigit (b3 / 16), hexDigit (b3 % 16), '-',
       hexDigit (b4 / 16), hexDigit (b4 % 16), hexDigit (b5 / 16), hexDigit (b5 % 16), '-',
       hexDigit (b6 / 16), hexDigit (b6 % 16), hexDigit (b7 / 16), hexDigit (b7 % 16), '-',
       hexDigit (b8 / 16), hexDigit (b8 % 16), hexDigit (b9 / 16), hexDigit (b9 % 16), '-',
       hexDigit (b10 / 16), hexDigit (b10 % 16), hexDigit (b11 / 16), hexDigit (b11 % 16),
       hexDigit (b12 / 16), hexDigit (b12 % 16), hexDigit (b13 / 16), hexDigit (b13 % 16),
       hexDigit (b14 / 16), hexDigit (b14 % 16), hexDigit (b15 / 16), hexDigit (b15 % 16)] := by
  rw [format_mk_segments]
  simp [byteHex]

lemma byteHex_filter (b : Nat) (hb : b < 256) :
    (byteHex b).filter (fun c => c != '-') = byteHex b := by
  have h1 := hexDigit_ne_dash (b / 16) (by omega)
  have h2 := hexDigit_ne_dash (b % 16) (by omega)
  simp [byteHex, List.filter_cons, h1, h2]

lemma format_mk_filter (b0 b1 b2 b3 b4 b5 b6 b7 b8 b9 b10 b11 b12 b13 b14 b15 : Nat)
    (h0 : b0 < 256) (h1 : b1 < 256) (h2 : b2 < 256) (h3 : b3 < 256)
    (h4 : b4 < 256) (h5 : b5 < 256) (h6 : b6 < 256) (h7 : b7 < 256)
    (h8 : b8 < 256) (h9 : b9 < 256) (h10 : b10 < 256) (h11 : b11 < 256)
    (h12 : b12 < 256) (h13 : b13 < 256) (h14 : b14 < 256) (h15 : b15 < 256) :
    (Uuid7.format (Uuid7.mk [b0, b1, b2, b3, b4, b5, b6, b7, b8, b9, b10, b11, b12, b13, b14, b15])).filter
        (fun c => c != '-') =
      byteHex b0 ++ (byteHex b1 ++ (byteHex b2 ++ (byteHex b3 ++ (byteHex b4 ++ (byteHex b5 ++
      (byteHex b6 ++ (byteHex b7 ++ (byteHex b8 ++ (byteHex b9 ++ (byteHex b10 ++ (byteHex b11 ++
      (byteHex b12 ++ (byteHex b13 ++ (byteHex b14 ++ byteHex b15)))))))))))))) := by
  rw [format_mk_segments]
  simp only [List.filter_append, byteHex_filter b0 h0, byteHex_filter b1 h1,
    byteHex_filter b2 h2, byteHex_filter b3 h3, byteHex_filter b4 h4, byteHex_filter b5 h5,
    byteHex_filter b6 h6, byteHex_filter b7 h7, byteHex_filter b8 h8, byteHex_filter b9 h9,
    byteHex_filter b10 h10, byteHex_filter b11 h11, byteHex_filter b12 h12,
    byteHex_filter b13 h13, byteHex_filter b14 h14, byteHex_filter b15 h15]
  simp [List.append_assoc]

lemma hexFold_byteHex_step (b : Nat) (hb : b < 256) (a : Nat) (rest : List Char) :
    List.foldl (fun a c => 16 * a + (hexDigitVal c).getD 0) a (byteHex b ++ rest) =
      List.foldl (fun a c => 16 * a + (hexDigitVal c).getD 0) (256 * a + b) rest := by
  have e1 := hexDigitVal_hexDigit (b / 16) (by omega)
  have e2 := hexDigitVal_hexDigit (b % 16) (by omega)
  simp only [byteHex, List.cons_append, List.nil_append, List.foldl_cons, e1, e2,
    Option.getD_some]
  congr 1
  omega

lemma hexFold_byteHex_last (b : Nat) (hb : b < 256) (a : Nat) :
    List.foldl (fun a c => 16 * a + (hexDigitVal c).getD 0) a (byteHex b) = 256 * a + b := by
  have e1 := hexDigitVal_hexDigit (b / 16) (by omega)
  have e2 := hexDigitVal_hexDigit (b % 16) (by omega)
  simp only [byteHex, List.foldl_cons, List.foldl_nil, e1, e2, Option.getD_some]
  omega

lemma new_with_rng_mk (millis : Nat) (rand : List Nat) :
    Uuid7.new_with_rng millis rand =
      Uuid7.mk
        [ (millis % 2 ^ 64) >>> 40 % 256, (millis % 2 ^ 64) >>> 32 % 256,
          (millis % 2 ^ 64) >>> 24 % 256, (millis % 2 ^ 64) >>> 16 % 256,
          (millis % 2 ^ 64) >>> 8 % 256, millis % 2 ^ 64 % 256,
          Nat.lor (Nat.land (rand.getD 0 0 % 256) 15) 112,
          rand.getD 1 0 % 256,
          Nat.lor (Nat.land (rand.getD 2 0 % 256) 63) 128,
          rand.getD 3 0 % 256, rand.getD 4 0 % 256, rand.getD 5 0 % 256,
          rand.getD 6 0 % 256, rand.getD 7 0 % 256, rand.getD 8 0 % 256,
          rand.getD 9 0 % 256 ] := rfl

set_option maxRecDepth 4000 in
lemma variant_byte_div16 :
    ∀ x, x < 256 → Nat.lor (Nat.land x 63) 128 / 16 ∈ ([8, 9, 10, 11] : List Nat) := by
  decide

/-- C3: for every well-formed value the formatted string has exactly 36
characters with dashes exactly at indices 8, 13, 18 and 23, every other
character a lowercase hexadecimal digit, and reading the 32 hex digits
most-significant-first yields exactly the 128-bit payload `as_u128`; and
for every generated value the character at index 14 is `7` and the one at
index 19 is one of `8`, `9`, `a`, `b`. -/
theorem c3_canonical_shape :
    (∀ u : Uuid7, u.Wf →
      (Uuid7.format u).length = 36 ∧
      ((Uuid7.format u).get? 8 = some '-' ∧ (Uuid7.format u).get? 13 = some '-' ∧
       (Uuid7.format u).get? 18 = some '-' ∧ (Uuid7.format u).get? 23 = some '-') ∧
      (∀ i, i < 36 → i ≠ 8 → i ≠ 13 → i ≠ 18 → i ≠ 23 →
        (Uuid7.format u).getD i ' ' ∈ "0123456789abcdef".toList) ∧
      hexFold ((Uuid7.format u).filter (fun c => c != '-')) = u.as_u128) ∧
    (∀ millis : Nat, ∀ rand : List Nat,
      (Uuid7.format (Uuid7.new_with_rng millis rand)).getD 14 ' ' = '7' ∧
      (Uuid7.format (Uuid7.new_with_rng millis rand)).getD 19 ' ' ∈
        (['8', '9', 'a', 'b'] : List Char)) := by
  constructor
  · intro u hwf
    obtain ⟨hlen, hbnd⟩ := hwf
    obtain ⟨b0, b1, b2, b3, b4, b5, b6, b7, b8, b9, b10, b11, b12, b13, b14, b15, heq⟩ :=
      list16_destruct u.bytes hlen
    have hu : u = Uuid7.mk [b0, b1, b2, b3, b4, b5, b6, b7, b8, b9, b10, b11, b12, b13, b14, b15] := by
      cases u; simpa using heq
    subst hu
    simp only [List.mem_cons, List.not_mem_nil, or_false, forall_eq_or_imp, forall_eq] at hbnd
    obtain ⟨B0, B1, B2, B3, B4, B5, B6, B7, B8, B9, B10, B11, B12, B13, B14, B15⟩ := hbnd
    refine ⟨?_, ⟨?_, ?_, ?_, ?_⟩, ?_, ?_⟩
    · rw [format_mk_explicit]; rfl
    · rw [format_mk_explicit]; rfl
    · rw [format_mk_explicit]; rfl
    · rw [format_mk_explicit]; rfl
    · rw [format_mk_explicit]; rfl
    · intro i hi h8 h13 h18 h23
      rw [format_mk_explicit]
      interval_cases i <;>
        first
          | exact absurd rfl h8
          | exact absurd rfl h13
          | exact absurd rfl h18
          | exact absurd rfl h23
          | exact hexDigit_mem_lower _ (by omega)
    · rw [format_mk_filter b0 b1 b2 b3 b4 b5 b6 b7 b8 b9 b10 b11 b12 b13 b14 b15
        B0 B1 B2 B3 B4 B5 B6 B7 B8 B9 B10 B11 B12 B13 B14 B15]
      unfold hexFold
      rw [hexFold_byteHex_step b0 B0, hexFold_byteHex_step b1 B1, hexFold_byteHex_step b2 B2,
        hexFold_byteHex_step b3 B3, hexFold_byteHex_step b4 B4, hexFold_byteHex_step b5 B5,
        hexFold_byteHex_step b6 B6, hexFold_byteHex_step b7 B7, hexFold_byteHex_step b8 B8,
        hexFold_byteHex_step b9 B9, hexFold_byteHex_step b10 B10, hexFold_byteHex_step b11 B11,
        hexFold_byteHex_step b12 B12, hexFold_byteHex_step b13 B13, hexFold_byteHex_step b14 B14,
        hexFold_byteHex_last b15 B15]
      have hwf2 :
          (Uuid7.mk [b0, b1, b2, b3, b4, b5, b6, b7, b8, b9, b10, b11, b12, b13, b14, b15]).Wf := by
        refine ⟨rfl, ?_⟩
        simp only [List.mem_cons, List.not_mem_nil, or_false, forall_eq_or_imp, forall_eq]
        exact ⟨B0, B1, B2, B3, B4, B5, B6, B7, B8, B9, B10, B11, B12, B13, B14, B15⟩
      rw [as_u128_eq_beVal _ hwf2]
      rw [beVal16]
      omega
  · intro millis rand
    rw [new_with_rng_mk, format_mk_explicit]
    constructor
    · rw [version_byte_div _ (Nat.mod_lt _ (by norm_num))]
      rfl
    · have hv := variant_byte_div16 (rand.getD 2 0 % 256) (Nat.mod_lt _ (by norm_num))
      simp only [List.mem_cons, List.not_mem_nil, or_false] at hv
      rcases hv with hv | hv | hv | hv <;> rw [hv]
      · show hexDigit 8 ∈ ['8', '9', 'a', 'b']
        decide
      · show hexDigit 9 ∈ ['8', '9', 'a', 'b']
        decide
      · show hexDigit 10 ∈ ['8', '9', 'a', 'b']
        decide
      · show hexDigit 11 ∈ ['8', '9', 'a', 'b']
        decide

/-- C3 witness at a concrete well-formed value and concrete generator
inputs. -/
theorem c3_canonical_shape_witness :
    ((Uuid7.format (Uuid7.mk [1, 132, 225, 160, 126, 42, 125, 64, 143, 59, 92, 26, 43, 60, 77, 94])).length = 36 ∧
     hexFold ((Uuid7.format (Uuid7.mk [1, 132, 225, 160, 126, 42, 125, 64, 143, 59, 92, 26, 43, 60, 77, 94])).filter
         (fun c => c != '-')) =
       (Uuid7.mk [1, 132, 225, 160, 126, 42, 125, 64, 143, 59, 92, 26, 43, 60, 77, 94]).as_u128) ∧
    (Uuid7.format (Uuid7.new_with_rng 1700000000000 [1, 2, 3, 4, 5, 6, 7, 8, 9, 10])).getD 14 ' ' = '7' :=
  ⟨⟨(c3_canonical_shape.1 _ (by decide)).1,
    (c3_canonical_shape.1 _ (by decide)).2.2.2⟩,
   (c3_canonical_shape.2 1700000000000 [1, 2, 3, 4, 5, 6, 7, 8, 9, 10]).1⟩

/-! ### Byte-level string structure, towards the round trip -/

lemma utf8ByteLen_append (s t : List Char) :
    utf8ByteLen (s ++ t) = utf8ByteLen s + utf8ByteLen t := by
  simp [utf8ByteLen]

lemma utf8ByteLen_byteHex (b : Nat) (hb : b < 256) : utf8ByteLen (byteHex b) = 2 := by
  simp [utf8ByteLen, byteHex,
    charBytes_hexDigit (b / 16) (by omega), charBytes_hexDigit (b % 16) (by omega)]

lemma format_mk_utf8Len (b0 b1 b2 b3 b4 b5 b6 b7 b8 b9 b10 b11 b12 b13 b14 b15 : Nat)
    (h0 : b0 < 256) (h1 : b1 < 256) (h2 : b2 < 256) (h3 : b3 < 256)
    (h4 : b4 < 256) (h5 : b5 < 256) (h6 : b6 < 256) (h7 : b7 < 256)
    (h8 : b8 < 256) (h9 : b9 < 256) (h10 : b10 < 256) (h11 : b11 < 256)
    (h12 : b12 < 256) (h13 : b13 < 256) (h14 : b14 < 256) (h15 : b15 < 256) :
    utf8ByteLen
      (Uuid7.format (Uuid7.mk [b0, b1, b2, b3, b4, b5, b6, b7, b8, b9, b10, b11, b12, b13, b14, b15])) = 36 := by
  rw [format_mk_segments]
  simp only [utf8ByteLen_append, utf8ByteLen_byteHex b0 h0, utf8ByteLen_byteHex b1 h1,
    utf8ByteLen_byteHex b2 h2, utf8ByteLen_byteHex b3 h3, utf8ByteLen_byteHex b4 h4,
    utf8ByteLen_byteHex b5 h5, utf8ByteLen_byteHex b6 h6, utf8ByteLen_byteHex b7 h7,
    utf8ByteLen_byteHex b8 h8, utf8ByteLen_byteHex b9 h9, utf8ByteLen_byteHex b10 h10,
    utf8ByteLen_byteHex b11 h11, utf8ByteLen_byteHex b12 h12, utf8ByteLen_byteHex b13 h13,
    utf8ByteLen_byteHex b14 h14, utf8ByteLen_byteHex b15 h15]
  rfl

/-- Concatenation of the two-digit hex renderings of a byte list. -/
def hexConcat : List Nat → List Char
  | [] => []
  | b :: l => byteHex b ++ hexConcat l

lemma hexConcat_append (s t : List Nat) :
    hexConcat (s ++ t) = hexConcat s ++ hexConcat t := by
  induction s with
  | nil => simp [hexConcat]
  | cons b s ih => simp [hexConcat, ih]

lemma format_mk_filter_hexConcat (b0 b1 b2 b3 b4 b5 b6 b7 b8 b9 b10 b11 b12 b13 b14 b15 : Nat)
    (h0 : b0 < 256) (h1 : b1 < 256) (h2 : b2 < 256) (h3 : b3 < 256)
    (h4 : b4 < 256) (h5 : b5 < 256) (h6 : b6 < 256) (h7 : b7 < 256)
    (h8 : b8 < 256) (h9 : b9 < 256) (h10 : b10 < 256) (h11 : b11 < 256)
    (h12 : b12 < 256) (h13 : b13 < 256) (h14 : b14 < 256) (h15 : b15 < 256) :
    (Uuid7.format (Uuid7.mk [b0, b1, b2, b3, b4, b5, b6, b7, b8, b9, b10, b11, b12, b13, b14, b15])).filter
        (fun c => c != '-') =
      hexConcat [b0, b1, b2, b3, b4, b5, b6, b7, b8, b9, b10, b11, b12, b13, b14, b15] := by
  rw [format_mk_filter b0 b1 b2 b3 b4 b5 b6 b7 b8 b9 b10 b11 b12 b13 b14 b15
    h0 h1 h2 h3 h4 h5 h6 h7 h8 h9 h10 h11 h12 h13 h14 h15]
  simp [hexConcat]

lemma dropBytes_byteHex (b : Nat) (hb : b < 256) (rest : List Char) (k : Nat) :
    dropBytes (byteHex b ++ rest) (k + 2) = dropBytes rest k := by
  have c1 := charBytes_hexDigit (b / 16) (by omega)
  have c2 := charBytes_hexDigit (b % 16) (by omega)
  show dropBytes (hexDigit (b / 16) :: hexDigit (b % 16) :: rest) (k + 2) = _
  rw [dropBytes, c1, if_pos (by omega)]
  have e1 : k + 2 - 1 = k + 1 := by omega
  rw [e1, dropBytes, c2, if_pos (by omega)]
  congr 1

lemma takeBytes_byteHex (b : Nat) (hb : b < 256) (rest : List Char) :
    takeBytes (byteHex b ++ rest) 2 = some (byteHex b) := by
  have c1 := charBytes_hexDigit (b / 16) (by omega)
  have c2 := charBytes_hexDigit (b % 16) (by omega)
  show takeBytes (hexDigit (b / 16) :: hexDigit (b % 16) :: rest) 2 = _
  rw [takeBytes, c1, if_pos (by omega)]
  rw [show (2 : Nat) - 1 = 1 from rfl, takeBytes, c2, if_pos (by omega)]
  rw [show (1 : Nat) - 1 = 0 from rfl, takeBytes]
  rfl

set_option maxRecDepth 8000 in
lemma from_str_radix16_byteHex : ∀ b, b < 256 → from_str_radix16 (byteHex b) = some b := by
  decide

lemma dropBytes_hexConcat_left :
    ∀ (pre : List Nat), (∀ x ∈ pre, x < 256) → ∀ t : List Char,
      dropBytes (hexConcat pre ++ t) (2 * pre.length) = some t
  | [], _, t => by simp [hexConcat, dropBytes]
  | b :: pre, h, t => by
    have hb : b < 256 := h b (by simp)
    have hshape : hexConcat (b :: pre) ++ t = byteHex b ++ (hexConcat pre ++ t) := by
      simp [hexConcat, List.append_assoc]
    have hlen : 2 * (b :: pre).length = 2 * pre.length + 2 := by
      simp [List.length_cons]; ring
    rw [hshape, hlen, dropBytes_byteHex b hb]
    exact dropBytes_hexConcat_left pre (fun x hx => h x (by simp [hx])) t

lemma decodeBytes_hexConcat :
    ∀ (l pre : List Nat), (∀ x ∈ l, x < 256) → (∀ x ∈ pre, x < 256) →
      decodeBytes (hexConcat (pre ++ l)) pre.length l.length = .ok l
  | [], pre, _, _ => by simp [decodeBytes]
  | b :: l, pre, hl, hpre => by
    have hb : b < 256 := hl b (by simp)
    have hslice :
        sliceBytes (hexConcat (pre ++ b :: l)) (2 * pre.length) (2 * pre.length + 2) =
          some (byteHex b) := by
      unfold sliceBytes
      rw [hexConcat_append, dropBytes_hexConcat_left pre hpre _]
      have e1 : 2 * pre.length + 2 - 2 * pre.length = 2 := by omega
      rw [e1]
      rw [show hexConcat (b :: l) = byteHex b ++ hexConcat l from rfl]
      exact takeBytes_byteHex b hb _
    have hradix := from_str_radix16_byteHex b hb
    have hrec :
        decodeBytes (hexConcat (pre ++ b :: l)) (pre.length + 1) l.length = .ok l := by
      have hshape : pre ++ b :: l = (pre ++ [b]) ++ l := by simp
      have hlen : pre.length + 1 = (pre ++ [b]).length := by simp
      rw [hshape, hlen]
      exact decodeBytes_hexConcat l (pre ++ [b]) (fun x hx => hl x (by simp [hx]))
        (by
          intro x hx
          simp only [List.mem_append, List.mem_singleton] at hx
          rcases hx with hx | rfl
          · exact hpre x hx
          · exact hb)
    show decodeBytes (hexConcat (pre ++ b :: l)) pre.length (l.length + 1) = _
    rw [decodeBytes]
    simp only [hslice, hradix, hrec]

/-- C1: for every well-formed value whose version nibble (high nibble of
byte 6) is 7 and whose variant bits (top two bits of byte 8) are binary
10 — in particular every value `new_with_rng` produces — parsing the
formatted canonical string succeeds and returns the same value. -/
theorem c1_round_trip (u : Uuid7) (h : u.Wf)
    (hver : u.bytes.getD 6 0 >>> 4 = 7) (hvar : u.bytes.getD 8 0 >>> 6 = 2) :
    from_str (Uuid7.format u) = .ok u := by
  obtain ⟨hlen, hbnd⟩ := h
  obtain ⟨b0, b1, b2, b3, b4, b5, b6, b7, b8, b9, b10, b11, b12, b13, b14, b15, heq⟩ :=
    list16_destruct u.bytes hlen
  have hu : u = Uuid7.mk [b0, b1, b2, b3, b4, b5, b6, b7, b8, b9, b10, b11, b12, b13, b14, b15] := by
    cases u; simpa using heq
  subst hu
  simp only [List.mem_cons, List.not_mem_nil, or_false, forall_eq_or_imp, forall_eq] at hbnd
  obtain ⟨B0, B1, B2, B3, B4, B5, B6, B7, B8, B9, B10, B11, B12, B13, B14, B15⟩ := hbnd
  have hv6 : b6 >>> 4 = 7 := hver
  have hv8 : b8 >>> 6 = 2 := hvar
  rw [Nat.shiftRight_eq_div_pow] at hv6 hv8
  have hd6 : b6 / 16 = 7 := by omega
  have hd8 : b8 / 64 = 2 := by omega
  have hL := format_mk_utf8Len b0 b1 b2 b3 b4 b5 b6 b7 b8 b9 b10 b11 b12 b13 b14 b15
    B0 B1 B2 B3 B4 B5 B6 B7 B8 B9 B10 B11 B12 B13 B14 B15
  have hg8 :
      (Uuid7.format (Uuid7.mk [b0, b1, b2, b3, b4, b5, b6, b7, b8, b9, b10, b11, b12, b13, b14, b15])).get? 8 =
        some '-' := by
    rw [format_mk_explicit]; rfl
  have hg13 :
      (Uuid7.format (Uuid7.mk [b0, b1, b2, b3, b4, b5, b6, b7, b8, b9, b10, b11, b12, b13, b14, b15])).get? 13 =
        some '-' := by
    rw [format_mk_explicit]; rfl
  have hg18 :
      (Uuid7.format (Uuid7.mk [b0, b1, b2, b3, b4, b5, b6, b7, b8, b9, b10, b11, b12, b13, b14, b15])).get? 18 =
        some '-' := by
    rw [format_mk_explicit]; rfl
  have hg23 :
      (Uuid7.format (Uuid7.mk [b0, b1, b2, b3, b4, b5, b6, b7, b8, b9, b10, b11, b12, b13, b14, b15])).get? 23 =
        some '-' := by
    rw [format_mk_explicit]; rfl
  have hg14 :
      (Uuid7.format (Uuid7.mk [b0, b1, b2, b3, b4, b5, b6, b7, b8, b9, b10, b11, b12, b13, b14, b15])).get? 14 =
        some '7' := by
    rw [format_mk_explicit, hd6]; rfl
  have hg19 :
      (Uuid7.format (Uuid7.mk [b0, b1, b2, b3, b4, b5, b6, b7, b8, b9, b10, b11, b12, b13, b14, b15])).get? 19 =
        some (hexDigit (b8 / 16)) := by
    rw [format_mk_explicit]; rfl
  have hmem :
      ∀ x ∈ [b0, b1, b2, b3, b4, b5, b6, b7, b8, b9, b10, b11, b12, b13, b14, b15], x < 256 := by
    simp only [List.mem_cons, List.not_mem_nil, or_false, forall_eq_or_imp, forall_eq]
    exact ⟨B0, B1, B2, B3, B4, B5, B6, B7, B8, B9, B10, B11, B12, B13, B14, B15⟩
  have hdec :
      decodeBytes (hexConcat [b0, b1, b2, b3, b4, b5, b6, b7, b8, b9, b10, b11, b12, b13, b14, b15]) 0 16 =
        .ok [b0, b1, b2, b3, b4, b5, b6, b7, b8, b9, b10, b11, b12, b13, b14, b15] := by
    have hstep := decodeBytes_hexConcat
      [b0, b1, b2, b3, b4, b5, b6, b7, b8, b9, b10, b11, b12, b13, b14, b15] [] hmem (by simp)
    simpa using hstep
  unfold from_str
  rw [if_neg (by simp [hL])]
  rw [if_neg (by push_neg; exact ⟨hg8, hg13, hg18, hg23⟩)]
  rw [if_neg (by push_neg; exact hg14)]
  simp only [hg19, Option.getD_some]
  have hcase : b8 / 16 = 8 ∨ b8 / 16 = 9 ∨ b8 / 16 = 10 ∨ b8 / 16 = 11 := by omega
  have hfil := format_mk_filter_hexConcat b0 b1 b2 b3 b4 b5 b6 b7 b8 b9 b10 b11 b12 b13 b14 b15
    B0 B1 B2 B3 B4 B5 B6 B7 B8 B9 B10 B11 B12 B13 B14 B15
  rcases hcase with hc | hc | hc | hc <;>
    rw [hc] <;>
    rw [if_neg (by decide)] <;>
    simp only [hfil, hdec]

/-- C1 witness at a concrete well-formed version-7, variant-10 value. -/
theorem c1_round_trip_witness :
    from_str (Uuid7.format (Uuid7.mk [1, 132, 225, 160, 126, 42, 125, 64, 143, 59, 92, 26, 43, 60, 77, 94])) =
      .ok (Uuid7.mk [1, 132, 225, 160, 126, 42, 125, 64, 143, 59, 92, 26, 43, 60, 77, 94]) :=
  c1_round_trip _ (by decide) (by decide) (by decide)

/-- C6 (code bug): this 36-byte input has the two-byte character é placed
so that the hex-decode loop slices the dash-less string at byte offset 22,
which falls inside é's UTF-8 encoding; Rust string slicing panics there,
so `from_str` panics instead of returning an error value as the
propagation policy promises. -/
theorem c6_parse_panics_on_split_char :
    from_str ("01234567-89ab-7def-8123-4é6789abcde".toList) = .panicked := by
  decide

/-- C5 counterexample: a 36-byte input with dashes at 8, 13, 18, 23, a
non-hex character `z` at position 0 and `1` at position 14 yields the
version error, not the format error — there is no hex-digit check in the
dash-position step — and with `7` at position 14 the same `z` reaches the
decode step and the supposedly unreachable hex error is returned. -/
theorem c5_counterexample :
    from_str ("z1234567-89ab-1def-8123-456789abcdef".toList) = .error (versionErrMsg '1') ∧
    versionErrMsg '1' ≠ dashErrMsg ∧
    from_str ("z1234567-89ab-7def-8123-456789abcdef".toList) = .error (hexErrMsg 0 ['z', '1']) := by
  decide

/-- C5 amended: the dash-position check validates only the four dash
positions and performs no hex-digit check, so a well-dashed 36-byte input
with a non-hex character at position 0 and a non-`7` at position 14
yields the version error, and one passing the version and variant checks
is rejected only at the final decode step with the hex error, which is
therefore reachable. -/
theorem c5_amended_no_hex_precheck :
    from_str ("z1234567-89ab-1def-8123-456789abcdef".toList) = .error (versionErrMsg '1') ∧
    from_str ("z1234567-89ab-7def-8123-456789abcdef".toList) = .error (hexErrMsg 0 ['z', '1']) := by
  decide

/-- C7 counterexample: the length check counts UTF-8 bytes, not
characters: a 35-character, 36-byte input passes it (ending in the hex
error rather than the length error), and a 36-character, 37-byte input
with `1` at position 14 is rejected with the length error rather than the
version error. -/
theorem c7_counterexample :
    (("01234567-89ab-7def-8123-é56789abcde".toList).length = 35 ∧
      from_str ("01234567-89ab-7def-8123-é56789abcde".toList) = .error (hexErrMsg 10 ['é']) ∧
      hexErrMsg 10 ['é'] ≠ lengthErrMsg) ∧
    (("0123456é-89ab-1def-8123-456789abcdef".toList).length = 36 ∧
      ("0123456é-89ab-1def-8123-456789abcdef".toList).get? 14 = some '1' ∧
      from_str ("0123456é-89ab-1def-8123-456789abcdef".toList) = .error lengthErrMsg ∧
      lengthErrMsg ≠ versionErrMsg '1') := by
  decide

/-- C7 amended: with lengths measured in UTF-8 bytes (Rust's `str::len`),
the checks run in the fixed order length, dashes, version, variant: any
input that is not exactly 36 bytes yields the length error; a well-dashed
36-byte input whose character at position 14 is not `7` yields the
version error; and one with `7` at 14 whose character at position 19 is
not one of `8`, `9`, `a`, `b` (case-insensitive) yields the variant
error. -/
theorem c7_amended_check_order (s : List Char) :
    (utf8ByteLen s ≠ 36 → from_str s = .error lengthErrMsg) ∧
    (utf8ByteLen s = 36 →
      s.get? 8 = some '-' → s.get? 13 = some '-' → s.get? 18 = some '-' → s.get? 23 = some '-' →
      s.get? 14 ≠ some '7' →
      from_str s = .error (versionErrMsg ((s.get? 14).getD '?'))) ∧
    (utf8ByteLen s = 36 →
      s.get? 8 = some '-' → s.get? 13 = some '-' → s.get? 18 = some '-' → s.get? 23 = some '-' →
      s.get? 14 = some '7' →
      (s.get? 19).getD '?' ∉ (['8', '9', 'a', 'b', 'A', 'B'] : List Char) →
      from_str s = .error (variantErrMsg ((s.get? 19).getD '?'))) := by
  refine ⟨?_, ?_, ?_⟩
  · intro hL
    unfold from_str
    rw [if_pos hL]
  · intro hL h8 h13 h18 h23 h14
    unfold from_str
    rw [if_neg (fun hc => hc hL)]
    rw [if_neg (by push_neg; exact ⟨h8, h13, h18, h23⟩)]
    rw [if_pos h14]
  · intro hL h8 h13 h18 h23 h14 h19
    unfold from_str
    rw [if_neg (fun hc => hc hL)]
    rw [if_neg (by push_neg; exact ⟨h8, h13, h18, h23⟩)]
    rw [if_neg (by push_neg; exact h14)]
    rw [if_pos h19]

/-- C7 amended witness at the three concrete example inputs. -/
theorem c7_amended_check_order_witness :
    from_str ("1234".toList) = .error lengthErrMsg ∧
    from_str ("01234567-89ab-1def-8123-456789abcdef".toList) =
      .error (versionErrMsg ((("01234567-89ab-1def-8123-456789abcdef".toList).get? 14).getD '?')) ∧
    from_str ("01234567-89ab-7def-c123-456789abcdef".toList) =
      .error (variantErrMsg ((("01234567-89ab-7def-c123-456789abcdef".toList).get? 19).getD '?')) :=
  ⟨(c7_amended_check_order _).1 (by decide),
   (c7_amended_check_order _).2.1 (by decide) (by decide) (by decide) (by decide) (by decide)
     (by decide),
   (c7_amended_check_order _).2.2 (by decide) (by decide) (by decide) (by decide) (by decide)
     (by decide) (by decide)⟩

/-- C10 counterexample: `u8::from_str_radix` accepts a leading `+`, so
this input containing `+0` is accepted by parse, yet formatting the
parsed value yields `00…`, not the lowercase form of the input: format
after parse is not lowercase-identity on all accepted inputs. -/
theorem c10_counterexample :
    from_str ("+0234567-89ab-7def-8123-456789abcdef".toList) =
      .ok (Uuid7.mk [0, 35, 69, 103, 137, 171, 125, 239, 129, 35, 69, 103, 137, 171, 205, 239]) ∧
    Uuid7.format (Uuid7.mk [0, 35, 69, 103, 137, 171, 125, 239, 129, 35, 69, 103, 137, 171, 205, 239]) ≠
      ("+0234567-89ab-7def-8123-456789abcdef".toList).map lowerHexChar := by
  decide

/-! ### Inversion machinery for accepted parses (claim C10) -/

lemma charBytes_pos (c : Char) : 1 ≤ charBytes c := by
  unfold charBytes
  split_ifs <;> omega

lemma utf8ByteLen_cons (c : Char) (t : List Char) :
    utf8ByteLen (c :: t) = charBytes c + utf8ByteLen t := by
  simp [utf8ByteLen]

lemma utf8ByteLen_eq_zero (l : List Char) (h : utf8ByteLen l = 0) : l = [] := by
  cases l with
  | nil => rfl
  | cons c t =>
    have := charBytes_pos c
    rw [utf8ByteLen_cons] at h
    omega

lemma utf8ByteLen_filter_le (p : Char → Bool) (l : List Char) :
    utf8ByteLen (l.filter p) ≤ utf8ByteLen l := by
  induction l with
  | nil => simp
  | cons c t ih =>
    rw [List.filter_cons, utf8ByteLen_cons]
    by_cases hp : p c
    · rw [if_pos hp, utf8ByteLen_cons]
      omega
    · rw [if_neg (by simpa using hp)]
      omega

lemma utf8ByteLen_filter_eq (p : Char → Bool) (l : List Char)
    (h : utf8ByteLen (l.filter p) = utf8ByteLen l) : l.filter p = l := by
  induction l with
  | nil => simp
  | cons c t ih =>
    rw [List.filter_cons] at h ⊢
    by_cases hp : p c
    · rw [if_pos hp] at h ⊢
      rw [utf8ByteLen_cons, utf8ByteLen_cons] at h
      rw [ih (by omega)]
    · rw [if_neg (by simpa using hp)] at h
      have h1 := utf8ByteLen_filter_le p t
      have h2 := charBytes_pos c
      rw [utf8ByteLen_cons] at h
      omega

lemma utf8ByteLen_all_one (l : List Char) (h : ∀ c ∈ l, charBytes c = 1) :
    utf8ByteLen l = l.length := by
  induction l with
  | nil => rfl
  | cons c t ih =>
    rw [utf8ByteLen_cons, h c (by simp), List.length_cons,
      ih (fun x hx => h x (by simp [hx]))]
    omega

lemma hexDigitVal_inv (c : Char) (d : Nat) (h : hexDigitVal c = some d) :
    d < 16 ∧ charBytes c = 1 ∧ lowerHexChar c = hexDigit d := by
  unfold hexDigitVal at h
  split_ifs at h with h1 h2 h3
  · injection h with hd
    subst hd
    refine ⟨by omega, by unfold charBytes; rw [if_pos (by omega)], ?_⟩
    unfold lowerHexChar hexDigit
    rw [if_neg (by omega), if_pos (by omega)]
    rw [show 48 + (c.toNat - 48) = c.toNat by omega, Char.ofNat_toNat]
  · injection h with hd
    subst hd
    refine ⟨by omega, by unfold charBytes; rw [if_pos (by omega)], ?_⟩
    unfold lowerHexChar hexDigit
    rw [if_neg (by omega), if_neg (by omega)]
    rw [show 87 + (c.toNat - 87) = c.toNat by omega, Char.ofNat_toNat]
  · injection h with hd
    subst hd
    refine ⟨by omega, by unfold charBytes; rw [if_pos (by omega)], ?_⟩
    unfold lowerHexChar hexDigit
    rw [if_pos (by omega), if_neg (by omega)]
    rw [show 87 + (c.toNat - 55) = c.toNat + 32 by omega]

lemma digitsVal_cons_inv (c : Char) (cs : List Char) (acc b : Nat)
    (h : digitsVal (c :: cs) acc = some b) :
    ∃ d, hexDigitVal c = some d ∧ 16 * acc + d ≤ 255 ∧
      digitsVal cs (16 * acc + d) = some b := by
  rw [digitsVal] at h
  cases hv : hexDigitVal c with
  | none => rw [hv] at h; simp at h
  | some d =>
    simp only [hv] at h
    by_cases hle : 16 * acc + d ≤ 255
    · rw [if_pos hle] at h
      exact ⟨d, rfl, hle, h⟩
    · rw [if_neg hle] at h
      simp at h

lemma radix16_chunk_inv (cs : List Char) (b : Nat)
    (h : from_str_radix16 cs = some b) (hplus : '+' ∉ cs) (hlen : utf8ByteLen cs = 2) :
    ∃ ch cl, cs = [ch, cl] ∧ b < 256 ∧ charBytes ch = 1 ∧ charBytes cl = 1 ∧
      byteHex b = [lowerHexChar ch, lowerHexChar cl] := by
  have hdig : digitsVal cs 0 = some b := by
    unfold from_str_radix16 at h
    split at h
    · simp at h
    · simp at hplus
    · exact h
  cases cs with
  | nil => simp [utf8ByteLen] at hlen
  | cons c1 cs1 =>
    obtain ⟨dh, hvh, _, hrest⟩ := digitsVal_cons_inv c1 cs1 0 b hdig
    obtain ⟨hdh16, hcb1, hlow1⟩ := hexDigitVal_inv c1 dh hvh
    cases cs1 with
    | nil =>
      rw [utf8ByteLen_cons, hcb1] at hlen
      simp [utf8ByteLen] at hlen
    | cons c2 cs2 =>
      obtain ⟨dl, hvl, _, hrest2⟩ := digitsVal_cons_inv c2 cs2 _ b hrest
      obtain ⟨hdl16, hcb2, hlow2⟩ := hexDigitVal_inv c2 dl hvl
      have hcs2 : cs2 = [] := by
        rw [utf8ByteLen_cons, utf8ByteLen_cons, hcb1, hcb2] at hlen
        exact utf8ByteLen_eq_zero cs2 (by omega)
      subst hcs2
      rw [digitsVal] at hrest2
      injection hrest2 with hb
      have hbval : b = 16 * dh + dl := by omega
      refine ⟨c1, c2, rfl, by omega, hcb1, hcb2, ?_⟩
      unfold byteHex
      rw [show b / 16 = dh by omega, show b % 16 = dl by omega, hlow1, hlow2]

lemma chunks_structure :
    ∀ css bs,
      List.Forall₂ (fun cs b => utf8ByteLen cs = 2 ∧ from_str_radix16 cs = some b) css bs →
      ('+' ∉ css.flatten) →
      hexConcat bs = css.flatten.map lowerHexChar ∧ (∀ b ∈ bs, b < 256) ∧
        (∀ c ∈ css.flatten, charBytes c = 1) ∧ css.flatten.length = 2 * css.length := by
  intro css bs hfa
  induction hfa with
  | nil => intro _; simp [hexConcat]
  | @cons cs b css' bs' hcb hrest ih =>
    intro hplus
    obtain ⟨hlen2, hrad⟩ := hcb
    have hplus1 : '+' ∉ cs := fun hc => hplus (by simp [hc])
    have hplus2 : '+' ∉ css'.flatten := fun hc => hplus (by simp [hc])
    obtain ⟨ch, cl, hcs, hb256, hc1, hc2, hbh⟩ := radix16_chunk_inv cs b hrad hplus1 hlen2
    obtain ⟨ih1, ih2, ih3, ih4⟩ := ih hplus2
    refine ⟨?_, ?_, ?_, ?_⟩
    · rw [show hexConcat (b :: bs') = byteHex b ++ hexConcat bs' from rfl, hbh, ih1, hcs]
      simp
    · intro x hx
      rcases List.mem_cons.mp hx with rfl | hx
      · exact hb256
      · exact ih2 x hx
    · intro c hc
      rw [List.flatten_cons] at hc
      rcases List.mem_append.mp hc with hc | hc
      · rw [hcs] at hc
        rcases List.mem_cons.mp hc with rfl | hc
        · exact hc1
        · rcases List.mem_cons.mp hc with rfl | hc
          · exact hc2
          · simp at hc
      · exact ih3 c hc
    · rw [List.flatten_cons, List.length_append, hcs, ih4]
      simp [List.length_cons]
      ring

lemma dropBytes_zero (s : List Char) : dropBytes s 0 = some s := by
  cases s <;> rfl

lemma takeBytes_split :
    ∀ (s : List Char) (n : Nat) (t : List Char), takeBytes s n = some t →
      utf8ByteLen t = n ∧ ∃ r, s = t ++ r ∧ dropBytes s n = some r
  | s, 0, t, h => by
    have ht : t = [] := by
      cases s <;> (rw [takeBytes] at h; injection h with h; exact h.symm)
    subst ht
    exact ⟨rfl, s, rfl, dropBytes_zero s⟩
  | [], n + 1, t, h => by rw [takeBytes] at h; simp at h
  | c :: s', n + 1, t, h => by
    rw [takeBytes] at h
    by_cases hcb : charBytes c ≤ n + 1
    · rw [if_pos hcb] at h
      cases htk : takeBytes s' (n + 1 - charBytes c) with
      | none => rw [htk] at h; simp at h
      | some t' =>
        rw [htk] at h
        injection h with h
        subst h
        obtain ⟨hlen', r, hs', hdrop'⟩ := takeBytes_split s' (n + 1 - charBytes c) t' htk
        refine ⟨?_, r, ?_, ?_⟩
        · rw [utf8ByteLen_cons, hlen']
          omega
        · rw [List.cons_append, hs']
        · rw [dropBytes, if_pos hcb]
          exact hdrop'
    · rw [if_neg hcb] at h
      simp at h

lemma dropBytes_add_of_some :
    ∀ (s : List Char) (a : Nat) (t : List Char) (b : Nat),
      dropBytes s a = some t → dropBytes s (a + b) = dropBytes t b
  | s, 0, t, b, h => by
    rw [dropBytes_zero] at h
    injection h with h
    subst h
    simp
  | [], a + 1, t, b, h => by rw [dropBytes] at h; simp at h
  | c :: s', a + 1, t, b, h => by
    rw [dropBytes] at h
    by_cases hcb : charBytes c ≤ a + 1
    · rw [if_pos hcb] at h
      rw [show a + 1 + b = (a + b) + 1 by omega, dropBytes, if_pos (by omega)]
      rw [show a + b + 1 - charBytes c = (a + 1 - charBytes c) + b by omega]
      exact dropBytes_add_of_some s' (a + 1 - charBytes c) t b h
    · rw [if_neg hcb] at h
      simp at h

lemma decodeBytes_ok_inv (hex : List Char) :
    ∀ (n i : Nat) (bs : List Nat) (suf : List Char),
      decodeBytes hex i n = .ok bs → dropBytes hex (2 * i) = some suf →
      ∃ css rest, suf = css.flatten ++ rest ∧ css.length = n ∧
        List.Forall₂ (fun cs b => utf8ByteLen cs = 2 ∧ from_str_radix16 cs = some b) css bs
  | 0, i, bs, suf, hdec, _ => by
    have hbs : bs = [] := by
      rw [decodeBytes] at hdec
      injection hdec with h
      exact h.symm
    subst hbs
    exact ⟨[], suf, by simp, rfl, List.Forall₂.nil⟩
  | n + 1, i, bs, suf, hdec, hdrop => by
    rw [decodeBytes] at hdec
    unfold sliceBytes at hdec
    rw [hdrop] at hdec
    rw [show 2 * i + 2 - 2 * i = 2 by omega] at hdec
    cases htake : takeBytes suf 2 with
    | none =>
      simp only [htake] at hdec
      exact PRes.noConfusion hdec
    | some cs =>
      simp only [htake] at hdec
      cases hrad : from_str_radix16 cs with
      | none =>
        simp only [hrad] at hdec
        exact PRes.noConfusion hdec
      | some b =>
        simp only [hrad] at hdec
        cases hrec : decodeBytes hex (i + 1) n with
        | panicked =>
          simp only [hrec] at hdec
          exact PRes.noConfusion hdec
        | error e =>
          simp only [hrec] at hdec
          exact PRes.noConfusion hdec
        | ok bs' =>
          simp only [hrec] at hdec
          injection hdec with hbs
          obtain ⟨hlen2, r, hsuf, hdrop2⟩ := takeBytes_split suf 2 cs htake
          have hdrop' : dropBytes hex (2 * (i + 1)) = some r := by
            rw [show 2 * (i + 1) = 2 * i + 2 by ring,
              dropBytes_add_of_some hex (2 * i) suf 2 hdrop]
            exact hdrop2
          obtain ⟨css, rest, hr, hcl, hfa⟩ := decodeBytes_ok_inv hex n (i + 1) bs' r hrec hdrop'
          refine ⟨cs :: css, rest, ?_, by simp [hcl], ?_⟩
          · rw [hsuf, hr, List.flatten_cons, List.append_assoc]
          · rw [← hbs]
            exact List.Forall₂.cons ⟨hlen2, hrad⟩ hfa

lemma from_str_ok_inv (s : List Char) (u : Uuid7) (h : from_str s = .ok u) :
    utf8ByteLen s = 36 ∧ s.get? 8 = some '-' ∧ s.get? 13 = some '-' ∧
    s.get? 18 = some '-' ∧ s.get? 23 = some '-' ∧
    ∃ bs, decodeBytes (s.filter (fun c => c != '-')) 0 16 = .ok bs ∧ u = Uuid7.mk bs := by
  unfold from_str at h
  by_cases h1 : utf8ByteLen s ≠ 36
  · rw [if_pos h1] at h
    simp at h
  rw [if_neg h1] at h
  push_neg at h1
  by_cases h2 : s.get? 8 ≠ some '-' ∨ s.get? 13 ≠ some '-' ∨
      s.get? 18 ≠ some '-' ∨ s.get? 23 ≠ some '-'
  · rw [if_pos h2] at h
    simp at h
  rw [if_neg h2] at h
  push_neg at h2
  obtain ⟨g8, g13, g18, g23⟩ := h2
  by_cases h3 : s.get? 14 ≠ some '7'
  · rw [if_pos h3] at h
    simp at h
  rw [if_neg h3] at h
  by_cases h4 : (s.get? 19).getD '?' ∉ (['8', '9', 'a', 'b', 'A', 'B'] : List Char)
  · rw [if_pos h4] at h
    simp at h
  rw [if_neg h4] at h
  refine ⟨h1, g8, g13, g18, g23, ?_⟩
  cases hdec : decodeBytes (s.filter (fun c => c != '-')) 0 16 with
  | panicked =>
    simp only [hdec] at h
    exact PRes.noConfusion h
  | error e =>
    simp only [hdec] at h
    exact PRes.noConfusion h
  | ok bs =>
    simp only [hdec] at h
    injection h with hu
    exact ⟨bs, rfl, hu.symm⟩

lemma split_at_dash (s : List Char) (n : Nat) (h : s.get? n = some '-') :
    s = s.take n ++ '-' :: s.drop (n + 1) ∧ (s.take n).length = n := by
  have hlt : n < s.length := by
    rcases List.get?_eq_some.mp h with ⟨hl, _⟩
    exact hl
  have h' : s[n]? = some '-' := by
    rw [← List.get?_eq_getElem?]
    exact h
  constructor
  · conv_lhs => rw [← List.take_append_drop (n + 1) s]
    rw [List.take_succ, h']
    simp
  · rw [List.length_take]
    omega

lemma charBytes_dash : charBytes '-' = 1 := rfl

lemma lowerHexChar_dash : lowerHexChar '-' = '-' := rfl

lemma hexConcat_len2 (b0 b1 : Nat) : (hexConcat [b0, b1]).length = 4 := by
  simp [hexConcat, byteHex]

lemma hexConcat_len4 (b0 b1 b2 b3 : Nat) : (hexConcat [b0, b1, b2, b3]).length = 8 := by
  simp [hexConcat, byteHex]

/-- C10 amended: for every accepted input containing no `+` character,
formatting the parsed value reproduces the input with uppercase hex
letters lowercased. -/
theorem c10_amended_lowercase_roundtrip (s : List Char) (u : Uuid7)
    (hok : from_str s = .ok u) (hplus : '+' ∉ s) :
    Uuid7.format u = s.map lowerHexChar := by
  obtain ⟨hL, g8, g13, g18, g23, bs, hdec, hu⟩ := from_str_ok_inv s u hok
  subst hu
  obtain ⟨css, rest, hhex, hcss16, hfa⟩ :=
    decodeBytes_ok_inv (s.filter (fun c => c != '-')) 16 0 bs _ hdec
      (by rw [show 2 * 0 = 0 by rfl]; exact dropBytes_zero _)
  have hplusJ : '+' ∉ css.flatten := by
    intro hc
    apply hplus
    have hmem : ('+' : Char) ∈ s.filter (fun c => c != '-') := by
      rw [hhex]
      exact List.mem_append_left _ hc
    exact (List.mem_filter.mp hmem).1
  obtain ⟨hconcat, hbs256, hsize1, hjlen⟩ := chunks_structure css bs hfa hplusJ
  have hjbytes : utf8ByteLen css.flatten = 32 := by
    rw [utf8ByteLen_all_one _ hsize1, hjlen, hcss16]
  obtain ⟨hs8, hlenA⟩ := split_at_dash s 8 g8
  have g13' : (s.drop 9).get? 4 = some '-' := by
    rw [List.get?_drop]
    exact g13
  obtain ⟨hs13, hlenB⟩ := split_at_dash (s.drop 9) 4 g13'
  have g18' : ((s.drop 9).drop 5).get? 4 = some '-' := by
    rw [List.get?_drop, List.get?_drop]
    exact g18
  obtain ⟨hs18, hlenC⟩ := split_at_dash ((s.drop 9).drop 5) 4 g18'
  have g23' : (((s.drop 9).drop 5).drop 5).get? 4 = some '-' := by
    rw [List.get?_drop, List.get?_drop, List.get?_drop]
    exact g23
  obtain ⟨hs23, hlenD⟩ := split_at_dash (((s.drop 9).drop 5).drop 5) 4 g23'
  norm_num at hs8 hs13 hs18 hs23
  have hslen23 : 23 < s.length := by
    rcases List.get?_eq_some.mp g23 with ⟨hl, _⟩
    exact hl
  have hlenC2 : ((s.drop 14).take 4).length = 4 := by
    rw [List.length_take, List.length_drop]
    omega
  have hlenD2 : ((s.drop 19).take 4).length = 4 := by
    rw [List.length_take, List.length_drop]
    omega
  have hsfull := hs8
  rw [hs13] at hsfull
  rw [hs18] at hsfull
  rw [hs23] at hsfull
  have hfilter : s.filter (fun c => c != '-') =
      (s.take 8).filter (fun c => c != '-') ++
      (((s.drop 9).take 4).filter (fun c => c != '-') ++
      (((s.drop 14).take 4).filter (fun c => c != '-') ++
      (((s.drop 19).take 4).filter (fun c => c != '-') ++
      (s.drop 24).filter (fun c => c != '-')))) := by
    conv_lhs => rw [hsfull]
    simp [List.filter_append, List.filter_cons]
  have hbsum : utf8ByteLen (s.take 8) + utf8ByteLen ((s.drop 9).take 4) +
      utf8ByteLen ((s.drop 14).take 4) +
      utf8ByteLen ((s.drop 19).take 4) +
      utf8ByteLen (s.drop 24) = 32 := by
    rw [hsfull] at hL
    simp only [utf8ByteLen_append, utf8ByteLen_cons, charBytes_dash] at hL
    omega
  have lfA := utf8ByteLen_filter_le (fun c => c != '-') (s.take 8)
  have lfB := utf8ByteLen_filter_le (fun c => c != '-') ((s.drop 9).take 4)
  have lfC := utf8ByteLen_filter_le (fun c => c != '-') ((s.drop 14).take 4)
  have lfD := utf8ByteLen_filter_le (fun c => c != '-') ((s.drop 19).take 4)
  have lfE := utf8ByteLen_filter_le (fun c => c != '-') (s.drop 24)
  have hftot : utf8ByteLen (s.filter (fun c => c != '-')) =
      utf8ByteLen ((s.take 8).filter (fun c => c != '-')) +
      (utf8ByteLen (((s.drop 9).take 4).filter (fun c => c != '-')) +
      (utf8ByteLen (((s.drop 14).take 4).filter (fun c => c != '-')) +
      (utf8ByteLen (((s.drop 19).take 4).filter (fun c => c != '-')) +
      utf8ByteLen ((s.drop 24).filter (fun c => c != '-'))))) := by
    rw [hfilter]
    simp only [utf8ByteLen_append]
  have hhexlen : utf8ByteLen (s.filter (fun c => c != '-')) =
      32 + utf8ByteLen rest := by
    rw [hhex, utf8ByteLen_append, hjbytes]
  have hrest0 : rest = [] := utf8ByteLen_eq_zero rest (by omega)
  subst hrest0
  rw [List.append_nil] at hhex
  rw [show utf8ByteLen ([] : List Char) = 0 from rfl] at hhexlen
  have hfeA : (s.take 8).filter (fun c => c != '-') = s.take 8 :=
    utf8ByteLen_filter_eq _ _ (by omega)
  have hfeB : ((s.drop 9).take 4).filter (fun c => c != '-') = (s.drop 9).take 4 :=
    utf8ByteLen_filter_eq _ _ (by omega)
  have hfeC : ((s.drop 14).take 4).filter (fun c => c != '-') =
      (s.drop 14).take 4 :=
    utf8ByteLen_filter_eq _ _ (by omega)
  have hfeD : ((s.drop 19).take 4).filter (fun c => c != '-') =
      (s.drop 19).take 4 :=
    utf8ByteLen_filter_eq _ _ (by omega)
  have hfeE : (s.drop 24).filter (fun c => c != '-') =
      s.drop 24 :=
    utf8ByteLen_filter_eq _ _ (by omega)
  have hflat : css.flatten =
      s.take 8 ++ ((s.drop 9).take 4 ++ ((s.drop 14).take 4 ++
        ((s.drop 19).take 4 ++ s.drop 24))) := by
    rw [← hhex, hfilter, hfeA, hfeB, hfeC, hfeD, hfeE]
  have hlenE : (s.drop 24).length = 12 := by
    have hsub : ∀ c ∈ s.drop 24, charBytes c = 1 := by
      intro c hc
      exact hsize1 c (by rw [hflat]; simp [hc])
    have hsubA : ∀ c ∈ s.take 8, charBytes c = 1 := by
      intro c hc
      exact hsize1 c (by rw [hflat]; simp [hc])
    have hsubB : ∀ c ∈ (s.drop 9).take 4, charBytes c = 1 := by
      intro c hc
      exact hsize1 c (by rw [hflat]; simp [hc])
    have hsubC : ∀ c ∈ (s.drop 14).take 4, charBytes c = 1 := by
      intro c hc
      exact hsize1 c (by rw [hflat]; simp [hc])
    have hsubD : ∀ c ∈ (s.drop 19).take 4, charBytes c = 1 := by
      intro c hc
      exact hsize1 c (by rw [hflat]; simp [hc])
    have e1 := utf8ByteLen_all_one _ hsub
    have e2 := utf8ByteLen_all_one _ hsubA
    have e3 := utf8ByteLen_all_one _ hsubB
    have e4 := utf8ByteLen_all_one _ hsubC
    have e5 := utf8ByteLen_all_one _ hsubD
    omega
  have hbslen : bs.length = 16 := by
    rw [← hfa.length_eq, hcss16]
  obtain ⟨b0, b1, b2, b3, b4, b5, b6, b7, b8, b9, b10, b11, b12, b13, b14, b15, hbs⟩ :=
    list16_destruct bs hbslen
  subst hbs
  have hconcat' :
      hexConcat [b0, b1, b2, b3] ++ (hexConcat [b4, b5] ++ (hexConcat [b6, b7] ++
        (hexConcat [b8, b9] ++ hexConcat [b10, b11, b12, b13, b14, b15]))) =
      List.map lowerHexChar (s.take 8) ++ (List.map lowerHexChar ((s.drop 9).take 4) ++
        (List.map lowerHexChar ((s.drop 14).take 4) ++
        (List.map lowerHexChar ((s.drop 19).take 4) ++
        List.map lowerHexChar (s.drop 24)))) := by
    have hlhs : hexConcat [b0, b1, b2, b3, b4, b5, b6, b7, b8, b9, b10, b11, b12, b13, b14, b15] =
        hexConcat [b0, b1, b2, b3] ++ (hexConcat [b4, b5] ++ (hexConcat [b6, b7] ++
          (hexConcat [b8, b9] ++ hexConcat [b10, b11, b12, b13, b14, b15]))) := by
      simp [hexConcat, List.append_assoc]
    rw [← hlhs, hconcat, hflat]
    simp [List.map_append]
  obtain ⟨eA, hrest1⟩ := List.append_inj hconcat'
    (by rw [hexConcat_len4, List.length_map, hlenA])
  obtain ⟨eB, hrest2⟩ := List.append_inj hrest1
    (by rw [hexConcat_len2, List.length_map, hlenB])
  obtain ⟨eC, hrest3⟩ := List.append_inj hrest2
    (by rw [hexConcat_len2, List.length_map, hlenC2])
  obtain ⟨eD, eE⟩ := List.append_inj hrest3
    (by rw [hexConcat_len2, List.length_map, hlenD2])
  rw [format_mk_segments]
  conv_rhs => rw [hsfull]
  simp only [List.map_append, List.map_cons, lowerHexChar_dash]
  rw [← eA, ← eB, ← eC, ← eD, ← eE]
  simp [hexConcat, List.append_assoc]

/-- C10 amended witness: a concrete accepted `+`-free input with
uppercase hex digits, lowercased by the round trip. -/
theorem c10_amended_lowercase_roundtrip_witness :
    Uuid7.format (Uuid7.mk [1, 132, 225, 160, 126, 42, 125, 64, 143, 59, 92, 26, 43, 60, 77, 94]) =
      ("0184E1A0-7E2A-7D40-8F3B-5C1A2B3C4D5E".toList).map lowerHexChar :=
  c10_amended_lowercase_roundtrip _ _ (by decide) (by decide)

example : from_str ("0184e1a0-7e2a-7d40-8f3b-5c1a2b3c4d5e".toList) =
    .ok (Uuid7.mk [1, 132, 225, 160, 126, 42, 125, 64, 143, 59, 92, 26, 43, 60, 77, 94]) := by
  decide

example :
    Uuid7.format (Uuid7.mk [1, 132, 225, 160, 126, 42, 125, 64, 143, 59, 92, 26, 43, 60, 77, 94]) =
    "0184e1a0-7e2a-7d40-8f3b-5c1a2b3c4d5e".toList := by
  decide
